import Mathlib

/-!
Verification of the MS-SSIM module (`piq/ms_ssim.py`).

Shallow embedding: 4D image tensors `(N, C, H, W)` become `Tensor4` (dimensions
plus a total valuation function into `ℝ`); 5D complex tensors `(N, C, H, W, 2)`
become `CTensor4` with separate real/imaginary valuations.  The external
collaborators (`_ssim_per_channel`, `gaussian_filter`, `_validate_input`) live
outside the source file; they are either taken as parameters of the pyramid
engines or modelled from the spec, as indicated in doc comments.  Python
exceptions are modelled by `Except PiqError`.
-/

noncomputable section

/-- A 4D real tensor `(N, C, H, W)`: dimensions plus a total valuation
`batch → channel → row → col → ℝ`. -/
@[ext]
structure Tensor4 where
  n : ℕ
  c : ℕ
  h : ℕ
  w : ℕ
  val : ℕ → ℕ → ℕ → ℕ → ℝ

/-- A 1D real tensor `(N,)`: one scalar per batch item. -/
@[ext]
structure Tensor1 where
  n : ℕ
  val : ℕ → ℝ

/-- A 5D complex tensor `(N, C, H, W, 2)`: the trailing axis of size 2 is
modelled by two valuation functions (real and imaginary parts). -/
@[ext]
structure CTensor4 where
  n : ℕ
  c : ℕ
  h : ℕ
  w : ℕ
  re : ℕ → ℕ → ℕ → ℕ → ℝ
  im : ℕ → ℕ → ℕ → ℕ → ℝ

/-- Complex per-batch result `(N, 2)`. -/
@[ext]
structure CTensor1 where
  n : ℕ
  re : ℕ → ℝ
  im : ℕ → ℝ

/-- Error model: `invalidInput` models the `ValueError` (spec name
`InvalidInput`) raised by validation and the engines' size checks;
`keyError` models a Python `KeyError` from a failed dict lookup. -/
inductive PiqError where
  | invalidInput : PiqError
  | keyError : PiqError
deriving DecidableEq

/-- `torch.relu`: rectification to a non-negative value. -/
def relu (a : ℝ) : ℝ := max a 0

/-- `F.pad(t, pad=[p, 0, p, 0], mode='replicate')`: pad `p` pixels on the left
and on the top, replicating the edge row/column.  (Truncated `ℕ` subtraction
clamps indices below `p` to the original edge, which is replicate padding.) -/
def Tensor4.padTL (t : Tensor4) (p : ℕ) : Tensor4 :=
  ⟨t.n, t.c, t.h + p, t.w + p, fun b ch i j => t.val b ch (i - p) (j - p)⟩

/-- `F.avg_pool2d(t, kernel_size=2, padding=0)`: 2×2 window, stride 2, output
spatial dimensions `⌊H/2⌋ × ⌊W/2⌋`. -/
def Tensor4.avgPool2 (t : Tensor4) : Tensor4 :=
  ⟨t.n, t.c, t.h / 2, t.w / 2, fun b ch i j =>
    (t.val b ch (2 * i) (2 * j) + t.val b ch (2 * i) (2 * j + 1) +
      t.val b ch (2 * i + 1) (2 * j) + t.val b ch (2 * i + 1) (2 * j + 1)) / 4⟩

/-- Division of every sample by `data_range` (`x = x / data_range`). -/
def Tensor4.scale (t : Tensor4) (dataRange : ℝ) : Tensor4 :=
  ⟨t.n, t.c, t.h, t.w, fun b ch i j => t.val b ch i j / dataRange⟩

/-- Elementwise product of two tensors (used for the windowed second moments). -/
def Tensor4.mul (s t : Tensor4) : Tensor4 :=
  ⟨s.n, s.c, s.h, s.w, fun b ch i j => s.val b ch i j * t.val b ch i j⟩

/-- A per-batch-per-channel scalar array, shape `(N, C)` implied by the input
tensors of the primitive producing it. -/
abbrev ChanMap := ℕ → ℕ → ℝ

/-- The zero `ChanMap`, used as the (never reached) list default. -/
def zeroMap : ChanMap := fun _ _ => 0

/-- The real per-channel SSIM primitive, abstracted: given `x` and `y` it
returns the per-channel `(ssim_value, contrast_term)` pair, each of implied
shape `(N, C)`.  The kernel, `data_range`, `k1`, `k2` arguments of
`_ssim_per_channel` are folded into the function. -/
abbrev SsimPrim := Tensor4 → Tensor4 → ChanMap × ChanMap

/-- One downsampling step of the real pyramid (loop body for `iteration > 0`):
pad both images on the left/top by `max(x.h % 2, x.w % 2)` (the padding amount
is computed from `x`'s shape for both images, as in the source), then
average-pool with a 2×2 window, stride 2, no extra padding. -/
def downStep (x y : Tensor4) : Tensor4 × Tensor4 :=
  let p := max (x.h % 2) (x.w % 2)
  ((x.padTL p).avgPool2, (y.padTL p).avgPool2)

/-- The loop of `_multi_scale_ssim`: the list of per-level
`(ssim_value, contrast_term)` pairs, level 0 first.  Level 0 is computed on the
inputs themselves; each later level downsamples first. -/
def msTerms (prim : SsimPrim) : ℕ → Tensor4 → Tensor4 → List (ChanMap × ChanMap)
  | 0, _, _ => []
  | Nat.succ l, x, y => prim x y :: msTerms prim l (downStep x y).1 (downStep x y).2

/-- `mcs[:-1] + [ssim_val]`: contrast terms of all levels but the last,
then the SSIM value of the last level. -/
def msStack (pairs : List (ChanMap × ChanMap)) : List ChanMap :=
  (pairs.map Prod.snd).dropLast ++ [((pairs.getLast?).map Prod.fst).getD zeroMap]

/-- `torch.prod(torch.relu(stack) ** weights.view(-1,1,1), dim=0).mean(1)`:
clamp each level's term, raise it to its scale weight, multiply across levels,
average over the channel dimension. -/
def msCombine (weights : List ℝ) (stacked : List ChanMap) (C : ℕ) (b : ℕ) : ℝ :=
  (∑ ch in Finset.range C,
    (List.zipWith (fun t wi => relu (t b ch) ^ wi) stacked weights).prod) / (C : ℝ)

/-- `_multi_scale_ssim`: the real-path pyramid engine.  `kernelSize` stands for
`kernel.size(-1)`; the remaining arguments of the per-channel primitive are
folded into `prim`. -/
def _multi_scale_ssim (prim : SsimPrim) (kernelSize : ℕ)
    (scale_weights_tensor : List ℝ) (x y : Tensor4) : Except PiqError Tensor1 :=
  if x.w < (kernelSize - 1) * 2 ^ (scale_weights_tensor.length - 1) + 1 ∨
      x.h < (kernelSize - 1) * 2 ^ (scale_weights_tensor.length - 1) + 1 then
    .error .invalidInput
  else
    .ok ⟨x.n, fun b =>
      msCombine scale_weights_tensor
        (msStack (msTerms prim scale_weights_tensor.length x y)) x.c b⟩

/-- Real part of a complex tensor, as a `Tensor4` (`x[..., 0]`). -/
def CTensor4.real (t : CTensor4) : Tensor4 := ⟨t.n, t.c, t.h, t.w, t.re⟩

/-- Imaginary part of a complex tensor, as a `Tensor4` (`x[..., 1]`). -/
def CTensor4.imag (t : CTensor4) : Tensor4 := ⟨t.n, t.c, t.h, t.w, t.im⟩

/-- `torch.stack((r, i), dim=-1)` for two same-shaped 4D tensors. -/
def cstack (r i : Tensor4) : CTensor4 := ⟨r.n, r.c, r.h, r.w, r.val, i.val⟩

/-- Division of both components by `data_range`. -/
def CTensor4.scale (t : CTensor4) (dataRange : ℝ) : CTensor4 :=
  ⟨t.n, t.c, t.h, t.w, fun b ch i j => t.re b ch i j / dataRange,
    fun b ch i j => t.im b ch i j / dataRange⟩

/-- Embedding of a real 4D tensor as a 5D complex tensor with zero imaginary
component. -/
def Tensor4.toC (t : Tensor4) : CTensor4 :=
  ⟨t.n, t.c, t.h, t.w, t.val, fun _ _ _ _ => 0⟩

/-- A complex per-batch-per-channel array: (real, imaginary) components. -/
abbrev CChanMap := ChanMap × ChanMap

/-- The zero `CChanMap`. -/
def czeroMap : CChanMap := (zeroMap, zeroMap)

/-- The complex per-channel SSIM primitive, abstracted: returns the complex
`(ssim_value, contrast_term)` pair, each an `(N, C)` array of (real, imaginary)
components. -/
abbrev CSsimPrim := CTensor4 → CTensor4 → CChanMap × CChanMap

/-- One downsampling step of the complex pyramid: each of the four component
planes is padded (amount computed from `x`'s spatial shape) and average-pooled,
then the components are re-stacked. -/
def cdownStep (x y : CTensor4) : CTensor4 × CTensor4 :=
  let p := max (x.h % 2) (x.w % 2)
  (cstack ((x.real.padTL p).avgPool2) ((x.imag.padTL p).avgPool2),
   cstack ((y.real.padTL p).avgPool2) ((y.imag.padTL p).avgPool2))

/-- The loop of `_multi_scale_ssim_complex`: per-level complex
`(ssim_value, contrast_term)` pairs, level 0 first. -/
def cmsTerms (cprim : CSsimPrim) : ℕ → CTensor4 → CTensor4 → List (CChanMap × CChanMap)
  | 0, _, _ => []
  | Nat.succ l, x, y => cprim x y :: cmsTerms cprim l (cdownStep x y).1 (cdownStep x y).2

/-- `mcs[:-1] + [ssim_val]` for the complex path. -/
def cmsStack (pairs : List (CChanMap × CChanMap)) : List CChanMap :=
  (pairs.map Prod.snd).dropLast ++ [((pairs.getLast?).map Prod.fst).getD czeroMap]

/-- Four-quadrant arctangent, the semantics of `torch.atan2` (with
`atan2 0 0 = 0`). -/
def atan2 (y x : ℝ) : ℝ :=
  if 0 < x then Real.arctan (y / x)
  else if x < 0 then
    if 0 ≤ y then Real.arctan (y / x) + Real.pi else Real.arctan (y / x) - Real.pi
  else if 0 < y then Real.pi / 2
  else if y < 0 then -(Real.pi / 2)
  else 0

/-- The magnitude of one per-level complex term after clamping:
`sqrt(relu(re)^2 + relu(im)^2)` (the source applies `torch.relu` to the stacked
tensor, hence independently to the real and the imaginary component, before
taking `.pow(2).sqrt()`). -/
def cAbs (re im : ℝ) : ℝ := Real.sqrt (relu re ^ 2 + relu im ^ 2)

/-- The phase of one per-level complex term after clamping:
`atan2(relu(im), relu(re))`. -/
def cDeg (re im : ℝ) : ℝ := atan2 (relu im) (relu re)

/-- `torch.prod(mcs_ssim_abs ** weights.view(-1,1,1), dim=0)` at one
batch/channel position: product across levels of the clamped magnitudes raised
to their scale weights. -/
def cProdAbs (weights : List ℝ) (stacked : List CChanMap) (b ch : ℕ) : ℝ :=
  (List.zipWith (fun t wi => cAbs (t.1 b ch) (t.2 b ch) ^ wi) stacked weights).prod

/-- `torch.sum(mcs_ssim_deg * weights.view(-1,1,1), dim=0)` at one
batch/channel position: sum across levels of the clamped phases multiplied by
their scale weights. -/
def cSumDeg (weights : List ℝ) (stacked : List CChanMap) (b ch : ℕ) : ℝ :=
  (List.zipWith (fun t wi => cDeg (t.1 b ch) (t.2 b ch) * wi) stacked weights).sum

/-- `_multi_scale_ssim_complex`: the complex-path pyramid engine. -/
def _multi_scale_ssim_complex (cprim : CSsimPrim) (kernelSize : ℕ)
    (scale_weights_tensor : List ℝ) (x y : CTensor4) : Except PiqError CTensor1 :=
  if x.w < (kernelSize - 1) * 2 ^ (scale_weights_tensor.length - 1) + 1 ∨
      x.h < (kernelSize - 1) * 2 ^ (scale_weights_tensor.length - 1) + 1 then
    .error .invalidInput
  else
    .ok ⟨x.n,
      fun b => (∑ ch in Finset.range x.c,
        cProdAbs scale_weights_tensor
            (cmsStack (cmsTerms cprim scale_weights_tensor.length x y)) b ch *
          Real.cos (cSumDeg scale_weights_tensor
            (cmsStack (cmsTerms cprim scale_weights_tensor.length x y)) b ch)) / (x.c : ℝ),
      fun b => (∑ ch in Finset.range x.c,
        cProdAbs scale_weights_tensor
            (cmsStack (cmsTerms cprim scale_weights_tensor.length x y)) b ch *
          Real.sin (cSumDeg scale_weights_tensor
            (cmsStack (cmsTerms cprim scale_weights_tensor.length x y)) b ch)) / (x.c : ℝ)⟩

/-- A 2D convolution kernel: side length plus weights. -/
structure Kernel2 where
  k : ℕ
  val : ℕ → ℕ → ℝ

/-- Modelled from the spec: `gaussian_filter` (external, `piq.functional`) —
"produces a normalized 2D Gaussian convolution kernel of given size/sigma". -/
def gaussian_filter (size : ℕ) (sigma : ℝ) : Kernel2 :=
  ⟨size, fun u v =>
    Real.exp (-(((u : ℝ) - ((size : ℝ) - 1) / 2) ^ 2 +
        ((v : ℝ) - ((size : ℝ) - 1) / 2) ^ 2) / (2 * sigma ^ 2)) /
      (∑ a in Finset.range size, ∑ b in Finset.range size,
        Real.exp (-(((a : ℝ) - ((size : ℝ) - 1) / 2) ^ 2 +
          ((b : ℝ) - ((size : ℝ) - 1) / 2) ^ 2) / (2 * sigma ^ 2)))⟩

/-- Valid-mode 2D convolution of every channel with a kernel: output spatial
size `(H - k + 1) × (W - k + 1)`, each output sample a kernel-weighted sum of
the window anchored at it. -/
def conv2valid (kernel : Kernel2) (t : Tensor4) : Tensor4 :=
  ⟨t.n, t.c, t.h + 1 - kernel.k, t.w + 1 - kernel.k, fun b ch i j =>
    ∑ u in Finset.range kernel.k, ∑ v in Finset.range kernel.k,
      kernel.val u v * t.val b ch (i + u) (j + v)⟩

/-- The per-position contrast-structure term `(2σxy + c2)/(σx² + σy² + c2)`
of the modelled SSIM primitive, with the windowed (co)variances expressed
through second moments: `σxy = E[xy] − μx·μy`, `σx² = E[x²] − μx²`. -/
def csMap (kernel : Kernel2) (data_range k2 : ℝ) (x y : Tensor4) (b ch i j : ℕ) : ℝ :=
  (2 * ((conv2valid kernel (x.mul y)).val b ch i j -
      (conv2valid kernel x).val b ch i j * (conv2valid kernel y).val b ch i j) +
    (k2 * data_range) ^ 2) /
  ((conv2valid kernel (x.mul x)).val b ch i j - (conv2valid kernel x).val b ch i j ^ 2 +
    ((conv2valid kernel (y.mul y)).val b ch i j - (conv2valid kernel y).val b ch i j ^ 2) +
    (k2 * data_range) ^ 2)

/-- The per-position SSIM term: the luminance ratio
`(2μxμy + c1)/(μx² + μy² + c1)` times the contrast-structure term. -/
def ssimMap (kernel : Kernel2) (data_range k1 k2 : ℝ) (x y : Tensor4) (b ch i j : ℕ) : ℝ :=
  (2 * (conv2valid kernel x).val b ch i j * (conv2valid kernel y).val b ch i j +
      (k1 * data_range) ^ 2) /
    ((conv2valid kernel x).val b ch i j ^ 2 + (conv2valid kernel y).val b ch i j ^ 2 +
      (k1 * data_range) ^ 2) * csMap kernel data_range k2 x y b ch i j

/-- Modelled from the spec: `_ssim_per_channel` (external, `piq.ssim`) — the
real per-channel SSIM primitive: windowed means `μ` via convolution with the
kernel, windowed (co)variances via the second moments, per-position
contrast-structure `(2σxy + c2)/(σx² + σy² + c2)` and SSIM
`(2μxμy + c1)/(μx² + μy² + c1)` times the contrast-structure term, each
averaged over the window positions to one scalar per batch item and channel,
with `c1 = (k1·data_range)²`, `c2 = (k2·data_range)²`. -/
def _ssim_per_channel (kernel : Kernel2) (data_range k1 k2 : ℝ)
    (x y : Tensor4) : ChanMap × ChanMap :=
  (fun b ch => (∑ i in Finset.range (x.h + 1 - kernel.k),
      ∑ j in Finset.range (x.w + 1 - kernel.k),
        ssimMap kernel data_range k1 k2 x y b ch i j) /
      (((x.h + 1 - kernel.k) * (x.w + 1 - kernel.k) : ℕ) : ℝ),
   fun b ch => (∑ i in Finset.range (x.h + 1 - kernel.k),
      ∑ j in Finset.range (x.w + 1 - kernel.k),
        csMap kernel data_range k2 x y b ch i j) /
      (((x.h + 1 - kernel.k) * (x.w + 1 - kernel.k) : ℕ) : ℝ))

/-- The default scale weights from the MS-SSIM paper. -/
def scaleWeightsDefault : List ℝ := [0.0448, 0.2856, 0.3001, 0.2363, 0.1333]

/-- Modelled from the spec: `_validate_input` (external, `piq.utils`) — fails
with `InvalidInput` if the kernel size is even or the two inputs' shapes
differ.  (It is not handed the `reduction` argument.) -/
def validateInput (kernelSize : ℕ) (x y : Tensor4) : Bool :=
  decide (kernelSize % 2 = 1) && decide (x.n = y.n) && decide (x.c = y.c) &&
    decide (x.h = y.h) && decide (x.w = y.w)

/-- Modelled from the spec: `_validate_input` for the 5D complex form. -/
def validateInputC (kernelSize : ℕ) (x y : CTensor4) : Bool :=
  decide (kernelSize % 2 = 1) && decide (x.n = y.n) && decide (x.c = y.c) &&
    decide (x.h = y.h) && decide (x.w = y.w)

/-- The final reduction of `multi_scale_ssim`: `'none'` returns the per-item
vector unchanged; otherwise `{'mean': torch.mean, 'sum': torch.sum}[reduction]`
is applied over the batch axis, an unknown key raising `KeyError`. -/
def applyReduction (reduction : String) (v : List ℝ) : Except PiqError (List ℝ) :=
  if reduction = "none" then .ok v
  else if reduction = "mean" then .ok [v.sum / (v.length : ℝ)]
  else if reduction = "sum" then .ok [v.sum]
  else .error .keyError

/-- The final reduction for the complex path, applied componentwise. -/
def capplyReduction (reduction : String) (v : List (ℝ × ℝ)) :
    Except PiqError (List (ℝ × ℝ)) :=
  if reduction = "none" then .ok v
  else if reduction = "mean" then
    .ok [((v.map Prod.fst).sum / (v.length : ℝ), (v.map Prod.snd).sum / (v.length : ℝ))]
  else if reduction = "sum" then .ok [((v.map Prod.fst).sum, (v.map Prod.snd).sum)]
  else .error .keyError

/-- Propagate an engine failure, otherwise read out the per-batch vector and
apply the reduction. -/
def runReduction (reduction : String) (res : Except PiqError Tensor1) :
    Except PiqError (List ℝ) :=
  match res with
  | .error e => .error e
  | .ok t => applyReduction reduction ((List.range t.n).map t.val)

/-- `multi_scale_ssim`, real (4D) path: validate, rescale by `data_range`,
build the Gaussian kernel, run the real pyramid engine with the per-channel
primitive, apply the reduction. -/
def multi_scale_ssim (kernel_size : ℕ) (kernel_sigma data_range : ℝ)
    (reduction : String) (scale_weights : Option (List ℝ)) (k1 k2 : ℝ)
    (x y : Tensor4) : Except PiqError (List ℝ) :=
  if validateInput kernel_size x y then
    runReduction reduction (_multi_scale_ssim
      (_ssim_per_channel (gaussian_filter kernel_size kernel_sigma) data_range k1 k2)
      (gaussian_filter kernel_size kernel_sigma).k
      (scale_weights.getD scaleWeightsDefault)
      (x.scale data_range) (y.scale data_range))
  else .error .invalidInput

/-- Propagate an engine failure, otherwise read out the per-batch pairs and
apply the reduction (complex path). -/
def crunReduction (reduction : String) (res : Except PiqError CTensor1) :
    Except PiqError (List (ℝ × ℝ)) :=
  match res with
  | .error e => .error e
  | .ok t => capplyReduction reduction ((List.range t.n).map fun b => (t.re b, t.im b))

/-- `multi_scale_ssim`, complex (5D) path.  The complex per-channel primitive
(`_ssim_per_channel_complex`, external and not specified beyond its signature)
is a parameter, given the built kernel and the constants. -/
def multi_scale_ssim_cx (cprimFam : Kernel2 → ℝ → ℝ → ℝ → CSsimPrim)
    (kernel_size : ℕ) (kernel_sigma data_range : ℝ)
    (reduction : String) (scale_weights : Option (List ℝ)) (k1 k2 : ℝ)
    (x y : CTensor4) : Except PiqError (List (ℝ × ℝ)) :=
  if validateInputC kernel_size x y then
    crunReduction reduction (_multi_scale_ssim_complex
      (cprimFam (gaussian_filter kernel_size kernel_sigma) data_range k1 k2)
      (gaussian_filter kernel_size kernel_sigma).k
      (scale_weights.getD scaleWeightsDefault)
      (x.scale data_range) (y.scale data_range))
  else .error .invalidInput

/-- The configuration stored by `MultiScaleSSIMLoss` at construction. -/
structure MultiScaleSSIMLoss where
  kernel_size : ℕ
  kernel_sigma : ℝ
  k1 : ℝ
  k2 : ℝ
  scale_weights : Option (List ℝ)
  reduction : String
  data_range : ℝ

/-- `MultiScaleSSIMLoss.forward` (real path): compute the metric with the
stored configuration, then return `torch.ones_like(score) - score`. -/
def MultiScaleSSIMLoss.forward (L : MultiScaleSSIMLoss) (prediction target : Tensor4) :
    Except PiqError (List ℝ) :=
  (multi_scale_ssim L.kernel_size L.kernel_sigma L.data_range L.reduction
      L.scale_weights L.k1 L.k2 prediction target).map (List.map fun s => 1 - s)

/-- `MultiScaleSSIMLoss.forward` on 5D complex inputs: `ones_like(score)` is
all-ones in both components, so `1` is broadcast against each component. -/
def MultiScaleSSIMLoss.forwardC (L : MultiScaleSSIMLoss)
    (cprimFam : Kernel2 → ℝ → ℝ → ℝ → CSsimPrim)
    (prediction target : CTensor4) : Except PiqError (List (ℝ × ℝ)) :=
  (multi_scale_ssim_cx cprimFam L.kernel_size L.kernel_sigma L.data_range
      L.reduction L.scale_weights L.k1 L.k2 prediction target).map
    (List.map fun s => (1 - s.1, 1 - s.2))

/-- A constant-valued test tensor. -/
def constT (n c h w : ℕ) (v : ℝ) : Tensor4 := ⟨n, c, h, w, fun _ _ _ _ => v⟩

/-- A trivial real primitive (returns all-zero maps), for concrete instances of
the engine-level theorems that hold for every primitive. -/
def prim0 : SsimPrim := fun _ _ => (zeroMap, zeroMap)

/-- A trivial complex primitive family, for concrete instances. -/
def cpf0 : Kernel2 → ℝ → ℝ → ℝ → CSsimPrim := fun _ _ _ _ _ _ => (czeroMap, czeroMap)

/-- A 1×1×1×1 all-ones image (valid for kernel size 1). -/
def x1 : Tensor4 := constT 1 1 1 1 1

/-- A 1×1×1×1 all-zero complex image. -/
def cx1 : CTensor4 := ⟨1, 1, 1, 1, fun _ _ _ _ => 0, fun _ _ _ _ => 0⟩

/-- The unreduced metric output on `x1` vs `x1` with kernel size 1 and default
configuration (used to instantiate theorems about the public function). -/
def v1 : List ℝ :=
  (List.range (x1.scale 1).n).map fun b =>
    msCombine scaleWeightsDefault
      (msStack (msTerms (_ssim_per_channel (gaussian_filter 1 1.5) 1 0.01 0.03)
        scaleWeightsDefault.length (x1.scale 1) (x1.scale 1)))
      (x1.scale 1).c b

/-- The stacked complex terms on `cx1` vs `cx1` with the trivial primitive. -/
def cstacked1 : List CChanMap :=
  cmsStack (cmsTerms (cpf0 (gaussian_filter 1 1.5) 1 0.01 0.03)
    scaleWeightsDefault.length (cx1.scale 1) (cx1.scale 1))

/-- The unreduced complex metric output on `cx1` vs `cx1` with the trivial
primitive family. -/
def cv1 : List (ℝ × ℝ) :=
  (List.range (cx1.scale 1).n).map fun b =>
    ((∑ ch in Finset.range (cx1.scale 1).c,
        cProdAbs scaleWeightsDefault cstacked1 b ch *
          Real.cos (cSumDeg scaleWeightsDefault cstacked1 b ch)) / ((cx1.scale 1).c : ℝ),
     (∑ ch in Finset.range (cx1.scale 1).c,
        cProdAbs scaleWeightsDefault cstacked1 b ch *
          Real.sin (cSumDeg scaleWeightsDefault cstacked1 b ch)) / ((cx1.scale 1).c : ℝ))

/-- A loss configuration with kernel size 1 and reduction `'none'`. -/
def L0 : MultiScaleSSIMLoss := ⟨1, 1.5, 0.01, 0.03, none, "none", 1⟩

/-- A complex per-level term whose real and imaginary parts are both
negative. -/
def cneg : CChanMap := ((fun _ _ => -1), (fun _ _ => -1))

/-- Lift a real `(ssim, cs)` pair to a complex one with zero imaginary
components. -/
def liftC (p : ChanMap × ChanMap) : CChanMap × CChanMap :=
  ((p.1, zeroMap), (p.2, zeroMap))

/-- A complex primitive compatible with `prim0` on embedded real inputs. -/
def cprim0 : CSsimPrim := fun u v => liftC (prim0 u.real v.real)

/-- The concrete 1×1×256×256 constant image of value 0.5. -/
def x9 : Tensor4 := constT 1 1 256 256 0.5

/-- The loss configuration of the concrete identical-inputs scenario:
kernel 11/1.5, default-paper weights, reduction `'none'`, data range 1. -/
def L9 : MultiScaleSSIMLoss := ⟨11, 1.5, 0.01, 0.03, some scaleWeightsDefault, "none", 1⟩

/-- The spec's wording of the real-path combination (claim C1): collect exactly
`levels` terms — the contrast-structure terms of levels `0..levels-2` and the
SSIM value of level `levels-1` — clamp each to be non-negative, raise each to
its scale weight, multiply across levels, and average over the channel
dimension, one scalar per batch item. -/
def specMSSSIM (prim : SsimPrim) (weights : List ℝ) (x y : Tensor4) (b : ℕ) : ℝ :=
  (∑ ch in Finset.range x.c,
    ∏ i in Finset.range weights.length,
      relu ((if i = weights.length - 1
          then ((msTerms prim weights.length x y).getD i czeroMap).1
          else ((msTerms prim weights.length x y).getD i czeroMap).2) b ch)
        ^ weights.getD i 0) / (x.c : ℝ)

/-! ## Helper lemmas -/

theorem relu_nonneg (a : ℝ) : 0 ≤ relu a := le_max_right a 0

theorem zip_rpow_prod_nonneg (b ch : ℕ) :
    ∀ (ts : List ChanMap) (ws : List ℝ),
      0 ≤ (List.zipWith (fun t wi => relu (t b ch) ^ wi) ts ws).prod
  | [], _ => by simp
  | _ :: _, [] => by simp
  | t :: ts, wi :: ws => by
    simp only [List.zipWith_cons_cons, List.prod_cons]
    exact mul_nonneg (Real.rpow_nonneg (relu_nonneg _) _)
      (zip_rpow_prod_nonneg b ch ts ws)

theorem msCombine_nonneg (weights : List ℝ) (stacked : List ChanMap) (C b : ℕ) :
    0 ≤ msCombine weights stacked C b :=
  div_nonneg (Finset.sum_nonneg fun _ _ => zip_rpow_prod_nonneg _ _ _ _)
    (Nat.cast_nonneg C)

theorem msTerms_length (prim : SsimPrim) :
    ∀ (L : ℕ) (x y : Tensor4), (msTerms prim L x y).length = L
  | 0, _, _ => rfl
  | Nat.succ l, x, y => by
    simp only [msTerms, List.length_cons, msTerms_length prim l]

theorem msStack_singleton (p : ChanMap × ChanMap) : msStack [p] = [p.1] := rfl

theorem msStack_cons_cons (p q : ChanMap × ChanMap) (rest : List (ChanMap × ChanMap)) :
    msStack (p :: q :: rest) = p.2 :: msStack (q :: rest) := rfl

theorem msStack_getD :
    ∀ (pairs : List (ChanMap × ChanMap)) (i : ℕ), i < pairs.length →
      (msStack pairs).getD i zeroMap =
        if i = pairs.length - 1 then (pairs.getD i czeroMap).1
        else (pairs.getD i czeroMap).2
  | [], i, hi => absurd hi (by simp)
  | [p], i, hi => by
    have hz : i = 0 := Nat.lt_one_iff.1 (by simpa using hi)
    subst hz
    simp [msStack_singleton]
  | p :: q :: rest, 0, hi => by
    rw [msStack_cons_cons]
    simp
  | p :: q :: rest, Nat.succ i, hi => by
    rw [msStack_cons_cons]
    simp only [List.getD_cons_succ]
    rw [msStack_getD (q :: rest) i (by simpa using Nat.lt_of_succ_lt_succ hi)]
    by_cases hc : i = (q :: rest).length - 1
    · rw [if_pos hc, if_pos (by simp only [List.length_cons] at hc ⊢; omega)]
    · rw [if_neg hc, if_neg (by simp only [List.length_cons] at hc ⊢; omega)]

theorem msStack_length (pairs : List (ChanMap × ChanMap)) (hne : pairs ≠ []) :
    (msStack pairs).length = pairs.length := by
  unfold msStack
  rw [List.length_append, List.length_dropLast, List.length_map, List.length_singleton]
  have : pairs.length ≠ 0 := fun hc => hne (List.length_eq_zero.1 hc)
  omega

theorem zipWith_rpow_prod_eq_finset (b ch : ℕ) :
    ∀ (ts : List ChanMap) (ws : List ℝ), ts.length = ws.length →
      (List.zipWith (fun t wi => relu (t b ch) ^ wi) ts ws).prod =
        ∏ i in Finset.range ts.length,
          relu (ts.getD i zeroMap b ch) ^ ws.getD i 0
  | [], [], _ => by simp
  | [], _ :: _, h => by simp at h
  | _ :: _, [], h => by simp at h
  | t :: ts, wi :: ws, h => by
    simp only [List.zipWith_cons_cons, List.prod_cons, List.length_cons]
    rw [Finset.prod_range_succ']
    simp only [List.getD_cons_succ, List.getD_cons_zero]
    rw [zipWith_rpow_prod_eq_finset b ch ts ws (by simpa using h)]
    ring

/-! ## Claims -/

/-- Claim C1: for valid real inputs, the real-path MS-SSIM result equals the
spec's combination: exactly `levels` per-level terms (contrast-structure terms
of levels `0..levels-2`, the SSIM value of level `levels-1`), each clamped to
be non-negative and raised to its scale weight, multiplied across levels,
averaged over the channel dimension — one scalar per batch item. -/
theorem c1_combination (prim : SsimPrim) (k : ℕ) (wts : List ℝ) (x y : Tensor4)
    (hL : 1 ≤ wts.length)
    (hsz : ¬(x.w < (k - 1) * 2 ^ (wts.length - 1) + 1 ∨
      x.h < (k - 1) * 2 ^ (wts.length - 1) + 1)) :
    _multi_scale_ssim prim k wts x y = .ok ⟨x.n, specMSSSIM prim wts x y⟩ := by
  unfold _multi_scale_ssim
  rw [if_neg hsz]
  have hlen := msTerms_length prim wts.length x y
  have hne : msTerms prim wts.length x y ≠ [] := by
    intro hc
    rw [hc] at hlen
    simp only [List.length_nil] at hlen
    omega
  have hfun : (fun b => msCombine wts (msStack (msTerms prim wts.length x y)) x.c b) =
      specMSSSIM prim wts x y := by
    funext b
    unfold msCombine specMSSSIM
    congr 1
    refine Finset.sum_congr rfl fun ch _ => ?_
    rw [zipWith_rpow_prod_eq_finset b ch _ wts (by rw [msStack_length _ hne, hlen])]
    rw [msStack_length _ hne, hlen]
    refine Finset.prod_congr rfl fun i hi => ?_
    rw [msStack_getD _ i (by rw [hlen]; exact Finset.mem_range.1 hi)]
    rw [hlen]
  rw [hfun]

/-- Claim C1 (witness): concrete instance with the trivial primitive, a
singleton weight vector and a 1×1×1×1 input. -/
theorem c1_combination_witness :
    1 ≤ [(1 : ℝ)].length ∧
      _multi_scale_ssim prim0 1 [(1 : ℝ)] x1 x1 =
        .ok ⟨x1.n, specMSSSIM prim0 [(1 : ℝ)] x1 x1⟩ :=
  ⟨Nat.le.refl, c1_combination prim0 1 [(1 : ℝ)] x1 x1 Nat.le.refl (by decide)⟩

theorem arctanNonneg (t : ℝ) (ht : 0 ≤ t) : 0 ≤ Real.arctan t := by
  have h := Real.arctan_strictMono.monotone ht
  rwa [Real.arctan_zero] at h

theorem cDeg_mem (re im : ℝ) : 0 ≤ cDeg re im ∧ cDeg re im ≤ Real.pi / 2 := by
  have h1 : 0 ≤ relu im := relu_nonneg im
  have h2 : 0 ≤ relu re := relu_nonneg re
  unfold cDeg atan2
  rcases lt_or_eq_of_le h2 with hx | hx
  · rw [if_pos hx]
    exact ⟨arctanNonneg _ (div_nonneg h1 hx.le), (Real.arctan_lt_pi_div_two _).le⟩
  · rw [if_neg (by rw [← hx]; exact lt_irrefl 0),
      if_neg (by rw [← hx]; exact lt_irrefl 0)]
    rcases lt_or_eq_of_le h1 with hy | hy
    · rw [if_pos hy]
      exact ⟨by positivity, le_refl _⟩
    · rw [if_neg (by rw [← hy]; exact lt_irrefl 0),
        if_neg (by rw [← hy]; exact lt_irrefl 0)]
      exact ⟨le_refl _, by positivity⟩

theorem cAbs_of_neg_neg (re im : ℝ) (h1 : re < 0) (h2 : im < 0) : cAbs re im = 0 := by
  unfold cAbs relu
  rw [max_eq_right h1.le, max_eq_right h2.le]
  norm_num

theorem mem_zipWith_of_getD (f : CChanMap → ℝ → ℝ) :
    ∀ (ts : List CChanMap) (ws : List ℝ) (i : ℕ), i < ts.length → i < ws.length →
      f (ts.getD i czeroMap) (ws.getD i 0) ∈ List.zipWith f ts ws
  | [], _, i, hi, _ => absurd hi (by simp)
  | _ :: _, [], i, _, hiw => absurd hiw (by simp)
  | t :: ts, wi :: ws, 0, _, _ => by simp
  | t :: ts, wi :: ws, Nat.succ i, hi, hiw => by
    simp only [List.getD_cons_succ, List.zipWith_cons_cons]
    exact List.mem_cons_of_mem _
      (mem_zipWith_of_getD f ts ws i (by simpa using Nat.lt_of_succ_lt_succ hi)
        (by simpa using Nat.lt_of_succ_lt_succ hiw))

theorem cProdAbs_eq_zero (w : List ℝ) (stacked : List CChanMap) (b ch i : ℕ)
    (hwpos : ∀ wi ∈ w, 0 < wi) (hi : i < stacked.length) (hiw : i < w.length)
    (hre : (stacked.getD i czeroMap).1 b ch < 0)
    (him : (stacked.getD i czeroMap).2 b ch < 0) :
    cProdAbs w stacked b ch = 0 := by
  unfold cProdAbs
  apply List.prod_eq_zero
  have hwd : w.getD i 0 ∈ w := by
    rw [List.getD_eq_getElem _ _ hiw]
    exact List.getElem_mem _
  have hmem : cAbs ((stacked.getD i czeroMap).1 b ch) ((stacked.getD i czeroMap).2 b ch)
        ^ w.getD i 0 ∈
      List.zipWith (fun t wi => cAbs (t.1 b ch) (t.2 b ch) ^ wi) stacked w :=
    mem_zipWith_of_getD (fun t wi => cAbs (t.1 b ch) (t.2 b ch) ^ wi) stacked w i hi hiw
  rw [cAbs_of_neg_neg _ _ hre him, Real.zero_rpow (ne_of_gt (hwpos _ hwd))] at hmem
  exact hmem

theorem atan2_zero_nonneg (x : ℝ) (hx : 0 ≤ x) : atan2 0 x = 0 := by
  unfold atan2
  rcases lt_or_eq_of_le hx with h | h
  · rw [if_pos h, zero_div, Real.arctan_zero]
  · rw [if_neg (by rw [← h]; exact lt_irrefl 0), if_neg (by rw [← h]; exact lt_irrefl 0),
      if_neg (lt_irrefl 0), if_neg (lt_irrefl 0)]

theorem cAbs_zero_im (r : ℝ) : cAbs r 0 = relu r := by
  unfold cAbs
  rw [show relu 0 = 0 from max_self 0, show ((0 : ℝ)) ^ 2 = 0 from by norm_num,
    add_zero]
  exact Real.sqrt_sq (relu_nonneg r)

theorem cDeg_zero_im (r : ℝ) : cDeg r 0 = 0 := by
  unfold cDeg
  rw [show relu 0 = 0 from max_self 0]
  exact atan2_zero_nonneg (relu r) (relu_nonneg r)

theorem cstack_toC (t : Tensor4) (p : ℕ) :
    cstack ((t.toC.real.padTL p).avgPool2) ((t.toC.imag.padTL p).avgPool2) =
      ((t.padTL p).avgPool2).toC := by
  unfold cstack Tensor4.toC CTensor4.real CTensor4.imag Tensor4.padTL Tensor4.avgPool2
  simp only [CTensor4.mk.injEq, true_and, and_true]
  funext b c i j
  norm_num

theorem cdownStep_toC (x y : Tensor4) :
    cdownStep x.toC y.toC = ((downStep x y).1.toC, (downStep x y).2.toC) := by
  unfold cdownStep downStep
  exact Prod.ext (cstack_toC x _) (cstack_toC y _)

theorem cmsTerms_toC (rprim : SsimPrim) (cprim : CSsimPrim)
    (hcompat : ∀ u v : Tensor4, cprim u.toC v.toC = liftC (rprim u v)) :
    ∀ (L : ℕ) (x y : Tensor4),
      cmsTerms cprim L x.toC y.toC = (msTerms rprim L x y).map liftC
  | 0, _, _ => rfl
  | Nat.succ l, x, y => by
    simp only [cmsTerms, msTerms, List.map_cons]
    rw [hcompat]
    refine congrArg _ ?_
    rw [cdownStep_toC]
    exact cmsTerms_toC rprim cprim hcompat l (downStep x y).1 (downStep x y).2

theorem cmsStack_map_liftC :
    ∀ pairs : List (ChanMap × ChanMap),
      cmsStack (pairs.map liftC) = (msStack pairs).map (fun m => (m, zeroMap))
  | [] => rfl
  | [_] => rfl
  | p :: q :: rest => by
    simp only [List.map_cons]
    rw [show cmsStack (liftC p :: liftC q :: rest.map liftC) =
        (liftC p).2 :: cmsStack (liftC q :: rest.map liftC) from rfl]
    rw [show msStack (p :: q :: rest) = p.2 :: msStack (q :: rest) from rfl,
      List.map_cons]
    refine congrArg _ ?_
    have ih := cmsStack_map_liftC (q :: rest)
    simpa only [List.map_cons] using ih

theorem cProdAbs_liftC (b ch : ℕ) :
    ∀ (st : List ChanMap) (w : List ℝ),
      cProdAbs w (st.map fun m => (m, zeroMap)) b ch =
        (List.zipWith (fun t wi => relu (t b ch) ^ wi) st w).prod
  | [], _ => rfl
  | _ :: _, [] => rfl
  | m :: st, wi :: w => by
    have ih := cProdAbs_liftC b ch st w
    unfold cProdAbs at ih ⊢
    simp only [List.map_cons, List.zipWith_cons_cons, List.prod_cons, zeroMap] at ih ⊢
    rw [cAbs_zero_im, ih]

theorem cSumDeg_liftC (b ch : ℕ) :
    ∀ (st : List ChanMap) (w : List ℝ),
      cSumDeg w (st.map fun m => (m, zeroMap)) b ch = 0
  | [], _ => rfl
  | _ :: _, [] => rfl
  | m :: st, wi :: w => by
    have ih := cSumDeg_liftC b ch st w
    unfold cSumDeg at ih ⊢
    simp only [List.map_cons, List.zipWith_cons_cons, List.sum_cons, zeroMap] at ih ⊢
    rw [cDeg_zero_im, ih, zero_mul, add_zero]

theorem double_sum_div_self (f : ℕ → ℕ → ℝ) (n : ℕ) (hn : 1 ≤ n)
    (hpos : ∀ u v, 0 < f u v) :
    ∑ u in Finset.range n, ∑ v in Finset.range n,
      f u v / (∑ a in Finset.range n, ∑ b in Finset.range n, f a b) = 1 := by
  have hS : 0 < ∑ a in Finset.range n, ∑ b in Finset.range n, f a b :=
    Finset.sum_pos (fun a _ => Finset.sum_pos (fun b _ => hpos a b)
      (Finset.nonempty_range_iff.2 (by omega))) (Finset.nonempty_range_iff.2 (by omega))
  rw [Finset.sum_congr rfl fun u _ => (Finset.sum_div _ _ _).symm, ← Finset.sum_div,
    div_self hS.ne']

theorem gaussian_filter_nonneg (size : ℕ) (sigma : ℝ) (u v : ℕ) :
    0 ≤ (gaussian_filter size sigma).val u v := by
  unfold gaussian_filter
  dsimp only
  refine div_nonneg (Real.exp_pos _).le ?_
  exact Finset.sum_nonneg fun a _ => Finset.sum_nonneg fun b _ => (Real.exp_pos _).le

theorem gaussian_filter_sum (size : ℕ) (sigma : ℝ) (hs : 1 ≤ size) :
    ∑ u in Finset.range size, ∑ v in Finset.range size,
      (gaussian_filter size sigma).val u v = 1 := by
  unfold gaussian_filter
  dsimp only
  exact double_sum_div_self _ size hs fun u v => Real.exp_pos _

theorem sq_weighted_double_sum_le (k : ℕ) (K g : ℕ → ℕ → ℝ)
    (hK : ∀ u v, 0 ≤ K u v)
    (hsum : ∑ u in Finset.range k, ∑ v in Finset.range k, K u v = 1) :
    (∑ u in Finset.range k, ∑ v in Finset.range k, K u v * g u v) ^ 2 ≤
      ∑ u in Finset.range k, ∑ v in Finset.range k, K u v * (g u v * g u v) := by
  have h := Finset.sum_mul_sq_le_sq_mul_sq (Finset.range k ×ˢ Finset.range k)
    (fun p => Real.sqrt (K p.1 p.2)) (fun p => Real.sqrt (K p.1 p.2) * g p.1 p.2)
  have e1 : ∑ p in Finset.range k ×ˢ Finset.range k,
      Real.sqrt (K p.1 p.2) * (Real.sqrt (K p.1 p.2) * g p.1 p.2) =
      ∑ p in Finset.range k ×ˢ Finset.range k, K p.1 p.2 * g p.1 p.2 :=
    Finset.sum_congr rfl fun p _ => by
      rw [← mul_assoc, Real.mul_self_sqrt (hK p.1 p.2)]
  have e2 : ∑ p in Finset.range k ×ˢ Finset.range k, Real.sqrt (K p.1 p.2) ^ 2 =
      ∑ p in Finset.range k ×ˢ Finset.range k, K p.1 p.2 :=
    Finset.sum_congr rfl fun p _ => Real.sq_sqrt (hK p.1 p.2)
  have e3 : ∑ p in Finset.range k ×ˢ Finset.range k,
      (Real.sqrt (K p.1 p.2) * g p.1 p.2) ^ 2 =
      ∑ p in Finset.range k ×ˢ Finset.range k, K p.1 p.2 * (g p.1 p.2 * g p.1 p.2) :=
    Finset.sum_congr rfl fun p _ => by
      rw [mul_pow, Real.sq_sqrt (hK p.1 p.2)]
      ring
  rw [e1, e2, e3] at h
  have e4 : ∑ p in Finset.range k ×ˢ Finset.range k, K p.1 p.2 =
      ∑ u in Finset.range k, ∑ v in Finset.range k, K u v := Finset.sum_product _ _ _
  have e5 : ∑ p in Finset.range k ×ˢ Finset.range k, K p.1 p.2 * g p.1 p.2 =
      ∑ u in Finset.range k, ∑ v in Finset.range k, K u v * g u v :=
    Finset.sum_product _ _ _
  have e6 : ∑ p in Finset.range k ×ˢ Finset.range k, K p.1 p.2 * (g p.1 p.2 * g p.1 p.2) =
      ∑ u in Finset.range k, ∑ v in Finset.range k, K u v * (g u v * g u v) :=
    Finset.sum_product _ _ _
  rw [e4, e5, e6, hsum, one_mul] at h
  exact h

theorem ratio_one (A m c2 : ℝ) (h : 0 ≤ A - m ^ 2) (hc2 : 0 < c2) :
    (2 * (A - m * m) + c2) / (A - m ^ 2 + (A - m ^ 2) + c2) = 1 := by
  have hd : 0 < A - m ^ 2 + (A - m ^ 2) + c2 := by linarith
  rw [show 2 * (A - m * m) + c2 = A - m ^ 2 + (A - m ^ 2) + c2 from by ring]
  exact div_self hd.ne'

theorem lum_one (m c1 : ℝ) (hc1 : 0 < c1) :
    (2 * m * m + c1) / (m ^ 2 + m ^ 2 + c1) = 1 := by
  have hd : 0 < m ^ 2 + m ^ 2 + c1 := by positivity
  rw [show 2 * m * m + c1 = m ^ 2 + m ^ 2 + c1 from by ring]
  exact div_self hd.ne'

theorem conv_var_nonneg (kernel : Kernel2) (x : Tensor4)
    (hker : ∀ u v, 0 ≤ kernel.val u v)
    (hsum : ∑ u in Finset.range kernel.k, ∑ v in Finset.range kernel.k,
      kernel.val u v = 1) (b ch i j : ℕ) :
    0 ≤ (conv2valid kernel (x.mul x)).val b ch i j -
      (conv2valid kernel x).val b ch i j ^ 2 := by
  rw [sub_nonneg]
  show (∑ u in Finset.range kernel.k, ∑ v in Finset.range kernel.k,
      kernel.val u v * x.val b ch (i + u) (j + v)) ^ 2 ≤
    ∑ u in Finset.range kernel.k, ∑ v in Finset.range kernel.k,
      kernel.val u v * (x.val b ch (i + u) (j + v) * x.val b ch (i + u) (j + v))
  exact sq_weighted_double_sum_le kernel.k kernel.val
    (fun u v => x.val b ch (i + u) (j + v)) hker hsum

theorem csMap_self (kernel : Kernel2) (dr k2 : ℝ) (x : Tensor4)
    (hk2 : k2 * dr ≠ 0) (hker : ∀ u v, 0 ≤ kernel.val u v)
    (hsum : ∑ u in Finset.range kernel.k, ∑ v in Finset.range kernel.k,
      kernel.val u v = 1) (b ch i j : ℕ) :
    csMap kernel dr k2 x x b ch i j = 1 := by
  unfold csMap
  exact ratio_one _ _ _ (conv_var_nonneg kernel x hker hsum b ch i j)
    (pow_two_pos_of_ne_zero hk2)

theorem ssimMap_self (kernel : Kernel2) (dr k1 k2 : ℝ) (x : Tensor4)
    (hk1 : k1 * dr ≠ 0) (hk2 : k2 * dr ≠ 0) (hker : ∀ u v, 0 ≤ kernel.val u v)
    (hsum : ∑ u in Finset.range kernel.k, ∑ v in Finset.range kernel.k,
      kernel.val u v = 1) (b ch i j : ℕ) :
    ssimMap kernel dr k1 k2 x x b ch i j = 1 := by
  unfold ssimMap
  rw [csMap_self kernel dr k2 x hk2 hker hsum b ch i j, mul_one]
  exact lum_one _ _ (pow_two_pos_of_ne_zero hk1)

theorem ssim_per_channel_self (kernel : Kernel2) (dr k1 k2 : ℝ) (x : Tensor4)
    (hk1 : k1 * dr ≠ 0) (hk2 : k2 * dr ≠ 0)
    (hker : ∀ u v, 0 ≤ kernel.val u v)
    (hsum : ∑ u in Finset.range kernel.k, ∑ v in Finset.range kernel.k,
      kernel.val u v = 1)
    (hh : kernel.k ≤ x.h) (hw : kernel.k ≤ x.w) (b ch : ℕ) :
    (_ssim_per_channel kernel dr k1 k2 x x).1 b ch = 1 ∧
      (_ssim_per_channel kernel dr k1 k2 x x).2 b ch = 1 := by
  have hcnt : (((x.h + 1 - kernel.k) * (x.w + 1 - kernel.k) : ℕ) : ℝ) ≠ 0 := by
    refine Nat.cast_ne_zero.2 (Nat.mul_ne_zero ?_ ?_) <;> omega
  constructor
  · simp only [_ssim_per_channel]
    rw [Finset.sum_congr rfl fun i _ => Finset.sum_congr rfl fun j _ =>
      ssimMap_self kernel dr k1 k2 x hk1 hk2 hker hsum b ch i j]
    simp only [Finset.sum_const, Finset.card_range, nsmul_eq_mul, mul_one]
    rw [Nat.cast_mul] at hcnt ⊢
    exact div_self hcnt
  · simp only [_ssim_per_channel]
    rw [Finset.sum_congr rfl fun i _ => Finset.sum_congr rfl fun j _ =>
      csMap_self kernel dr k2 x hk2 hker hsum b ch i j]
    simp only [Finset.sum_const, Finset.card_range, nsmul_eq_mul, mul_one]
    rw [Nat.cast_mul] at hcnt ⊢
    exact div_self hcnt

theorem downStep_dims (x y : Tensor4) :
    (downStep x y).1.h = (x.h + 1) / 2 ∧ (downStep x y).1.w = (x.w + 1) / 2 := by
  unfold downStep Tensor4.padTL Tensor4.avgPool2
  constructor <;> (dsimp only; omega)

theorem bound_step (k L h : ℕ) (hL : 1 ≤ L) (hb : (k - 1) * 2 ^ L + 1 ≤ h) :
    (k - 1) * 2 ^ (L - 1) + 1 ≤ (h + 1) / 2 := by
  have hpow : 2 ^ L = 2 * 2 ^ (L - 1) := by
    conv_lhs => rw [show L = 1 + (L - 1) from by omega]
    rw [pow_add, pow_one]
  rw [hpow, mul_left_comm] at hb
  omega

theorem kernel_le_bound (k L : ℕ) : k ≤ (k - 1) * 2 ^ L + 1 := by
  have h2L : 1 ≤ 2 ^ L := Nat.one_le_two_pow
  have hmul : k - 1 ≤ (k - 1) * 2 ^ L := Nat.le_mul_of_pos_right _ (by omega)
  omega

theorem msTerms_self_one (kernel : Kernel2) (dr k1 k2 : ℝ)
    (hk1 : k1 * dr ≠ 0) (hk2 : k2 * dr ≠ 0)
    (hker : ∀ u v, 0 ≤ kernel.val u v)
    (hsum : ∑ u in Finset.range kernel.k, ∑ v in Finset.range kernel.k,
      kernel.val u v = 1) :
    ∀ (L : ℕ) (x : Tensor4),
      (kernel.k - 1) * 2 ^ (L - 1) + 1 ≤ x.h →
      (kernel.k - 1) * 2 ^ (L - 1) + 1 ≤ x.w →
      ∀ p ∈ msTerms (_ssim_per_channel kernel dr k1 k2) L x x, ∀ b ch,
        p.1 b ch = 1 ∧ p.2 b ch = 1
  | 0, _, _, _, p, hp => absurd hp (by simp [msTerms])
  | Nat.succ l, x, hh, hw, p, hp => by
    rw [show msTerms (_ssim_per_channel kernel dr k1 k2) (Nat.succ l) x x =
        _ssim_per_channel kernel dr k1 k2 x x ::
          msTerms (_ssim_per_channel kernel dr k1 k2) l
            (downStep x x).1 (downStep x x).2 from rfl] at hp
    rcases List.mem_cons.1 hp with hp | hp
    · intro b ch
      subst hp
      have hkh : kernel.k ≤ x.h := le_trans (kernel_le_bound kernel.k (Nat.succ l - 1)) hh
      have hkw : kernel.k ≤ x.w := le_trans (kernel_le_bound kernel.k (Nat.succ l - 1)) hw
      exact ssim_per_channel_self kernel dr k1 k2 x hk1 hk2 hker hsum hkh hkw b ch
    · cases l with
      | zero => exact absurd hp (by simp [msTerms])
      | succ m =>
        rw [show (downStep x x).2 = (downStep x x).1 from rfl] at hp
        have hd := downStep_dims x x
        have hh2 : (kernel.k - 1) * 2 ^ (Nat.succ m - 1) + 1 ≤ (downStep x x).1.h := by
          rw [hd.1]
          exact bound_step kernel.k (Nat.succ m) x.h (Nat.succ_le_succ (Nat.zero_le m))
            (by simpa using hh)
        have hw2 : (kernel.k - 1) * 2 ^ (Nat.succ m - 1) + 1 ≤ (downStep x x).1.w := by
          rw [hd.2]
          exact bound_step kernel.k (Nat.succ m) x.w (Nat.succ_le_succ (Nat.zero_le m))
            (by simpa using hw)
        exact msTerms_self_one kernel dr k1 k2 hk1 hk2 hker hsum (Nat.succ m)
          (downStep x x).1 hh2 hw2 p hp

theorem msStack_ones (b : ℕ) :
    ∀ (pairs : List (ChanMap × ChanMap)), pairs ≠ [] →
      (∀ p ∈ pairs, ∀ ch, p.1 b ch = 1 ∧ p.2 b ch = 1) →
      ∀ m ∈ msStack pairs, ∀ ch, m b ch = 1
  | [], hne, _ => absurd rfl hne
  | [p], _, h1 => by
    intro m hm ch
    rw [msStack_singleton, List.mem_singleton] at hm
    rw [hm]
    exact (h1 p (List.mem_singleton_self p) ch).1
  | p :: q :: rest, _, h1 => by
    intro m hm ch
    rw [msStack_cons_cons] at hm
    rcases List.mem_cons.1 hm with hm | hm
    · rw [hm]
      exact (h1 p (List.mem_cons_self _ _) ch).2
    · exact msStack_ones b (q :: rest) (by simp)
        (fun r hr => h1 r (List.mem_cons_of_mem _ hr)) m hm ch

theorem zip_rpow_prod_ones (b : ℕ) :
    ∀ (ts : List ChanMap) (ws : List ℝ) (ch : ℕ), (∀ m ∈ ts, m b ch = 1) →
      (List.zipWith (fun t wi => relu (t b ch) ^ wi) ts ws).prod = 1
  | [], _, _, _ => rfl
  | _ :: _, [], _, _ => rfl
  | t :: ts, wi :: ws, ch, hones => by
    simp only [List.zipWith_cons_cons, List.prod_cons]
    rw [hones t (List.mem_cons_self t ts),
      show relu 1 = 1 from max_eq_left (by norm_num), Real.one_rpow, one_mul]
    exact zip_rpow_prod_ones b ts ws ch fun m hm => hones m (List.mem_cons_of_mem _ hm)

theorem msCombine_ones (wts : List ℝ) (stacked : List ChanMap) (C b : ℕ)
    (hC : 1 ≤ C) (hones : ∀ m ∈ stacked, ∀ ch, m b ch = 1) :
    msCombine wts stacked C b = 1 := by
  unfold msCombine
  rw [Finset.sum_congr rfl fun ch _ => zip_rpow_prod_ones b stacked wts ch
      fun m hm => hones m hm ch,
    Finset.sum_const, Finset.card_range, nsmul_eq_mul, mul_one,
    div_self (Nat.cast_ne_zero.2 (by omega))]

theorem engine_self_one (kernel : Kernel2) (dr k1 k2 : ℝ) (wts : List ℝ) (x : Tensor4)
    (hk1 : k1 * dr ≠ 0) (hk2 : k2 * dr ≠ 0)
    (hker : ∀ u v, 0 ≤ kernel.val u v)
    (hsum : ∑ u in Finset.range kernel.k, ∑ v in Finset.range kernel.k,
      kernel.val u v = 1)
    (hL : 1 ≤ wts.length) (hC : 1 ≤ x.c)
    (hh : (kernel.k - 1) * 2 ^ (wts.length - 1) + 1 ≤ x.h)
    (hw : (kernel.k - 1) * 2 ^ (wts.length - 1) + 1 ≤ x.w) :
    _multi_scale_ssim (_ssim_per_channel kernel dr k1 k2) kernel.k wts x x =
      .ok ⟨x.n, fun _ => 1⟩ := by
  unfold _multi_scale_ssim
  rw [if_neg (by omega)]
  refine congrArg _ (Tensor1.ext rfl ?_)
  funext b
  have hterms := msTerms_self_one kernel dr k1 k2 hk1 hk2 hker hsum wts.length x hh hw
  have hlen := msTerms_length (_ssim_per_channel kernel dr k1 k2) wts.length x x
  have hne : msTerms (_ssim_per_channel kernel dr k1 k2) wts.length x x ≠ [] := by
    intro hc
    rw [hc] at hlen
    simp only [List.length_nil] at hlen
    omega
  exact msCombine_ones wts _ x.c b hC
    (msStack_ones b _ hne fun p hp => hterms p hp b)

/-- Claim C2 (counterexample): for the valid 1×1×161×162 input, the padding
performed before pooling at level 1 — `max(h % 2, w % 2)` pixels on top/left —
does NOT make both spatial dimensions even: the padded width is 163. -/
theorem c2_counterexample :
    ¬ (((constT 1 1 161 162 0).padTL
          (max ((constT 1 1 161 162 0).h % 2) ((constT 1 1 161 162 0).w % 2))).h % 2 = 0 ∧
        ((constT 1 1 161 162 0).padTL
          (max ((constT 1 1 161 162 0).h % 2) ((constT 1 1 161 162 0).w % 2))).w % 2 = 0) := by
  simp [constT, Tensor4.padTL]

/-- Claim C2 (amended): at every level `i > 0` both images are padded on the
top/left by `max(h % 2, w % 2)` replicated-edge pixels and then average-pooled
with a 2×2 window, stride 2, no extra padding; the pooled spatial dimensions
are `⌈h/2⌉ × ⌈w/2⌉`, and the padded dimensions are both even iff `h` and `w`
have equal parity. -/
theorem c2_amended (x y : Tensor4) (hh : y.h = x.h) (hww : y.w = x.w) :
    downStep x y = ((x.padTL (max (x.h % 2) (x.w % 2))).avgPool2,
      (y.padTL (max (x.h % 2) (x.w % 2))).avgPool2) ∧
    (downStep x y).1.h = (x.h + 1) / 2 ∧ (downStep x y).1.w = (x.w + 1) / 2 ∧
    (downStep x y).2.h = (x.h + 1) / 2 ∧ (downStep x y).2.w = (x.w + 1) / 2 ∧
    ((x.padTL (max (x.h % 2) (x.w % 2))).h % 2 = 0 ∧
        (x.padTL (max (x.h % 2) (x.w % 2))).w % 2 = 0 ↔ x.h % 2 = x.w % 2) := by
  refine ⟨rfl, ?_, ?_, ?_, ?_, ?_⟩ <;>
    simp [downStep, Tensor4.padTL, Tensor4.avgPool2, hh, hww] <;> omega

/-- Claim C2 (amended, witness): concrete instance at a 4×6 input. -/
theorem c2_amended_witness :
    downStep (constT 1 1 4 6 0) (constT 1 1 4 6 0) =
      (((constT 1 1 4 6 0).padTL (max ((constT 1 1 4 6 0).h % 2) ((constT 1 1 4 6 0).w % 2))).avgPool2,
       ((constT 1 1 4 6 0).padTL (max ((constT 1 1 4 6 0).h % 2) ((constT 1 1 4 6 0).w % 2))).avgPool2) ∧
    (downStep (constT 1 1 4 6 0) (constT 1 1 4 6 0)).1.h = ((constT 1 1 4 6 0).h + 1) / 2 ∧
    (downStep (constT 1 1 4 6 0) (constT 1 1 4 6 0)).1.w = ((constT 1 1 4 6 0).w + 1) / 2 ∧
    (downStep (constT 1 1 4 6 0) (constT 1 1 4 6 0)).2.h = ((constT 1 1 4 6 0).h + 1) / 2 ∧
    (downStep (constT 1 1 4 6 0) (constT 1 1 4 6 0)).2.w = ((constT 1 1 4 6 0).w + 1) / 2 ∧
    (((constT 1 1 4 6 0).padTL (max ((constT 1 1 4 6 0).h % 2) ((constT 1 1 4 6 0).w % 2))).h % 2 = 0 ∧
        ((constT 1 1 4 6 0).padTL (max ((constT 1 1 4 6 0).h % 2) ((constT 1 1 4 6 0).w % 2))).w % 2 = 0 ↔
      (constT 1 1 4 6 0).h % 2 = (constT 1 1 4 6 0).w % 2) :=
  c2_amended (constT 1 1 4 6 0) (constT 1 1 4 6 0) rfl rfl

/-- Claim C3: with a 5-element scale-weight vector, the real-path pyramid
engine fails with `InvalidInput` iff either spatial dimension of the input is
strictly smaller than `(kernel_size - 1) * 16 + 1`. -/
theorem c3_min_size (prim : SsimPrim) (k : ℕ) (wts : List ℝ) (x y : Tensor4)
    (hw : wts.length = 5) :
    _multi_scale_ssim prim k wts x y = .error .invalidInput ↔
      x.w < (k - 1) * 16 + 1 ∨ x.h < (k - 1) * 16 + 1 := by
  have h16 : (k - 1) * 2 ^ (wts.length - 1) + 1 = (k - 1) * 16 + 1 := by
    rw [hw]
    norm_num
  unfold _multi_scale_ssim
  rw [h16]
  split_ifs with h
  · simp [h]
  · simp [h]

/-- Claim C3 (witness): the default 5-level weights; a 1×1×161×160 image
(one pixel short in width of the bound 161 for kernel size 11) fails. -/
theorem c3_min_size_witness :
    scaleWeightsDefault.length = 5 ∧
      (_multi_scale_ssim prim0 11 scaleWeightsDefault
          (constT 1 1 161 160 0) (constT 1 1 161 160 0) = .error .invalidInput ↔
        (constT 1 1 161 160 0).w < (11 - 1) * 16 + 1 ∨
          (constT 1 1 161 160 0).h < (11 - 1) * 16 + 1) :=
  ⟨rfl, c3_min_size prim0 11 scaleWeightsDefault _ _ rfl⟩

/-- Claim C7: every per-batch-item real-path MS-SSIM score is non-negative:
each factor is a clamped (non-negative) base raised to a real scale weight,
and the product and channel average preserve non-negativity. -/
theorem c7_nonneg (prim : SsimPrim) (k : ℕ) (wts : List ℝ) (x y : Tensor4)
    (t : Tensor1) (h : _multi_scale_ssim prim k wts x y = .ok t) (b : ℕ) :
    0 ≤ t.val b := by
  unfold _multi_scale_ssim at h
  split_ifs at h
  rw [Except.ok.injEq] at h
  rw [← h]
  exact msCombine_nonneg _ _ _ _

/-- Claim C7 (witness): concrete non-negativity at a 1×1×1×1 input with the
trivial primitive and a singleton weight vector. -/
theorem c7_nonneg_witness :
    0 ≤ (Tensor1.mk x1.n fun b =>
      msCombine [1] (msStack (msTerms prim0 [(1 : ℝ)].length x1 x1)) x1.c b).val 0 :=
  c7_nonneg prim0 1 [1] x1 x1 _ rfl 0

/-- Claim C5: on inputs where the public metric with reduction `'none'`
succeeds with the per-item vector `v`, reduction `'mean'` returns the
arithmetic mean of `v` over the batch axis and `'sum'` returns its sum. -/
theorem c5_reduction (ks : ℕ) (sigma dr k1 k2 : ℝ) (sw : Option (List ℝ))
    (x y : Tensor4) (v : List ℝ)
    (h : multi_scale_ssim ks sigma dr "none" sw k1 k2 x y = .ok v) :
    multi_scale_ssim ks sigma dr "mean" sw k1 k2 x y = .ok [v.sum / (v.length : ℝ)] ∧
      multi_scale_ssim ks sigma dr "sum" sw k1 k2 x y = .ok [v.sum] := by
  unfold multi_scale_ssim at h ⊢
  by_cases hv : validateInput ks x y = true
  · rw [if_pos hv] at h
    rw [if_pos hv, if_pos hv]
    rcases hE : _multi_scale_ssim
        (_ssim_per_channel (gaussian_filter ks sigma) dr k1 k2)
        (gaussian_filter ks sigma).k (sw.getD scaleWeightsDefault)
        (x.scale dr) (y.scale dr) with e | t
    · rw [hE] at h
      exact Except.noConfusion h
    · rw [hE] at h
      have h' : List.map t.val (List.range t.n) = v := Except.ok.inj h
      subst h'
      exact ⟨rfl, rfl⟩
  · rw [if_neg hv] at h
    exact Except.noConfusion h

/-- Claim C5 (witness): concrete instance on `x1`. -/
theorem c5_reduction_witness :
    multi_scale_ssim 1 1.5 1 "mean" none 0.01 0.03 x1 x1 = .ok [v1.sum / (v1.length : ℝ)] ∧
      multi_scale_ssim 1 1.5 1 "sum" none 0.01 0.03 x1 x1 = .ok [v1.sum] :=
  c5_reduction 1 1.5 1 0.01 0.03 none x1 x1 v1 rfl

/-- Claim C8 (counterexample): with a reduction value outside
`{'none','mean','sum'}` the public metric fails with the lookup error
(`KeyError`), not with `InvalidInput`. -/
theorem c8_counterexample :
    multi_scale_ssim 1 1.5 1 "median" none 0.01 0.03 x1 x1 = .error .keyError ∧
      multi_scale_ssim 1 1.5 1 "median" none 0.01 0.03 x1 x1 ≠ .error .invalidInput := by
  refine ⟨rfl, fun hcon => ?_⟩
  exact absurd (Except.error.inj hcon) (by decide)

/-- Claim C8 (amended): on a valid input pair (witnessed by reduction `'none'`
succeeding), a reduction value outside `{'none','mean','sum'}` makes the public
metric fail with the dict-lookup error `KeyError` (not `InvalidInput`). -/
theorem c8_amended (ks : ℕ) (sigma dr k1 k2 : ℝ) (sw : Option (List ℝ))
    (r : String) (x y : Tensor4) (v : List ℝ)
    (h : multi_scale_ssim ks sigma dr "none" sw k1 k2 x y = .ok v)
    (hr1 : r ≠ "none") (hr2 : r ≠ "mean") (hr3 : r ≠ "sum") :
    multi_scale_ssim ks sigma dr r sw k1 k2 x y = .error .keyError := by
  unfold multi_scale_ssim at h ⊢
  by_cases hv : validateInput ks x y = true
  · rw [if_pos hv] at h
    rw [if_pos hv]
    rcases hE : _multi_scale_ssim
        (_ssim_per_channel (gaussian_filter ks sigma) dr k1 k2)
        (gaussian_filter ks sigma).k (sw.getD scaleWeightsDefault)
        (x.scale dr) (y.scale dr) with e | t
    · rw [hE] at h
      exact Except.noConfusion h
    · simp only [runReduction]
      unfold applyReduction
      rw [if_neg hr1, if_neg hr2, if_neg hr3]
  · rw [if_neg hv] at h
    exact Except.noConfusion h

/-- Claim C8 (amended, witness): concrete instance with reduction
`'median'`. -/
theorem c8_amended_witness :
    multi_scale_ssim 1 1.5 1 "median" none 0.01 0.03 x1 x1 = .error .keyError :=
  c8_amended 1 1.5 1 0.01 0.03 none "median" x1 x1 v1 rfl
    (by decide) (by decide) (by decide)

/-- Claim C6: the loss wrapper returns exactly `1 - score` where `score` is the
public metric at the wrapper's stored configuration — elementwise for the real
path and with `1` broadcast against each component for complex results — and
whenever the metric's per-item scores are all 1 the loss entries are all 0. -/
theorem c6_loss (L : MultiScaleSSIMLoss) (cpf : Kernel2 → ℝ → ℝ → ℝ → CSsimPrim)
    (x y : Tensor4) (cx cy : CTensor4) (v : List ℝ) (cv : List (ℝ × ℝ))
    (h : multi_scale_ssim L.kernel_size L.kernel_sigma L.data_range L.reduction
      L.scale_weights L.k1 L.k2 x y = .ok v)
    (hc : multi_scale_ssim_cx cpf L.kernel_size L.kernel_sigma L.data_range
      L.reduction L.scale_weights L.k1 L.k2 cx cy = .ok cv) :
    L.forward x y = .ok (v.map fun s => 1 - s) ∧
      L.forwardC cpf cx cy = .ok (cv.map fun s => (1 - s.1, 1 - s.2)) ∧
      ((∀ s ∈ v, s = 1) → ∀ l ∈ v.map (fun s => 1 - s), l = 0) := by
  refine ⟨?_, ?_, ?_⟩
  · unfold MultiScaleSSIMLoss.forward
    rw [h]
    rfl
  · unfold MultiScaleSSIMLoss.forwardC
    rw [hc]
    rfl
  · intro h1 l hl
    rcases List.mem_map.1 hl with ⟨s, hs, rfl⟩
    rw [h1 s hs]
    ring

/-- Claim C6 (witness): concrete instance with the kernel-size-1
configuration. -/
theorem c6_loss_witness :
    L0.forward x1 x1 = .ok (v1.map fun s => 1 - s) ∧
      L0.forwardC cpf0 cx1 cx1 = .ok (cv1.map fun s => (1 - s.1, 1 - s.2)) ∧
      ((∀ s ∈ v1, s = 1) → ∀ l ∈ v1.map (fun s => 1 - s), l = 0) :=
  c6_loss L0 cpf0 x1 x1 cx1 cx1 v1 cv1 rfl rfl

/-- Claim C4: whenever the complex primitive agrees with the real primitive on
inputs with all-zero imaginary components (the compatibility the spec assumes
of the external `_ssim_per_channel_complex`), the complex-path engine on such
inputs returns the real-path result as real component and 0 as imaginary
component — including agreement of the failure cases. -/
theorem c4_complex_real (rprim : SsimPrim) (cprim : CSsimPrim)
    (hcompat : ∀ u v : Tensor4, cprim u.toC v.toC = liftC (rprim u v))
    (k : ℕ) (wts : List ℝ) (x y : Tensor4) :
    _multi_scale_ssim_complex cprim k wts x.toC y.toC =
      (_multi_scale_ssim rprim k wts x y).map
        (fun r => CTensor1.mk r.n r.val fun _ => 0) := by
  unfold _multi_scale_ssim _multi_scale_ssim_complex
  simp only [show x.toC.w = x.w from rfl, show x.toC.h = x.h from rfl,
    show x.toC.n = x.n from rfl, show x.toC.c = x.c from rfl]
  split_ifs with hc
  · rfl
  · show Except.ok _ = Except.ok _
    refine congrArg _ ?_
    dsimp only
    rw [cmsTerms_toC rprim cprim hcompat, cmsStack_map_liftC]
    refine CTensor1.ext rfl ?_ ?_
    · funext b
      dsimp only
      unfold msCombine
      rw [Finset.sum_congr rfl fun ch _ => by
        rw [cProdAbs_liftC, cSumDeg_liftC, Real.cos_zero, mul_one]]
    · funext b
      dsimp only
      rw [Finset.sum_congr rfl fun ch _ => by
        rw [cSumDeg_liftC, Real.sin_zero, mul_zero]]
      rw [Finset.sum_const_zero, zero_div]

/-- Claim C4 (witness): concrete instance with the compatible pair
`(prim0, cprim0)`. -/
theorem c4_complex_real_witness :
    _multi_scale_ssim_complex cprim0 1 [(1 : ℝ)] x1.toC x1.toC =
      (_multi_scale_ssim prim0 1 [(1 : ℝ)] x1 x1).map
        (fun r => CTensor1.mk r.n r.val fun _ => 0) :=
  c4_complex_real prim0 cprim0 (fun _ _ => rfl) 1 [(1 : ℝ)] x1 x1

/-- Claim C9: for identical inputs `x == x` the modelled per-channel SSIM and
contrast terms equal 1 at every pyramid level, the real-path engine returns 1
for every batch item, the public metric (reduction `'none'`) returns the
all-ones vector, and the loss wrapper returns the all-zeros vector — exactly,
the real-arithmetic counterpart of "within floating-point tolerance". -/
theorem c9_identical (ks : ℕ) (sigma dr k1 k2 : ℝ) (wts : List ℝ) (x : Tensor4)
    (hks : 1 ≤ ks) (hodd : ks % 2 = 1)
    (hk1 : k1 * dr ≠ 0) (hk2 : k2 * dr ≠ 0)
    (hL : 1 ≤ wts.length) (hC : 1 ≤ x.c)
    (hh : (ks - 1) * 2 ^ (wts.length - 1) + 1 ≤ x.h)
    (hw : (ks - 1) * 2 ^ (wts.length - 1) + 1 ≤ x.w) :
    (∀ p ∈ msTerms (_ssim_per_channel (gaussian_filter ks sigma) dr k1 k2)
        wts.length x x, ∀ b ch, p.1 b ch = 1 ∧ p.2 b ch = 1) ∧
      _multi_scale_ssim (_ssim_per_channel (gaussian_filter ks sigma) dr k1 k2)
        (gaussian_filter ks sigma).k wts x x = .ok ⟨x.n, fun _ => 1⟩ ∧
      multi_scale_ssim ks sigma dr "none" (some wts) k1 k2 x x =
        .ok (List.replicate x.n 1) ∧
      (MultiScaleSSIMLoss.mk ks sigma k1 k2 (some wts) "none" dr).forward x x =
        .ok (List.replicate x.n 0) := by
  have hker := gaussian_filter_nonneg ks sigma
  have hsum := gaussian_filter_sum ks sigma hks
  have hA := msTerms_self_one (gaussian_filter ks sigma) dr k1 k2 hk1 hk2 hker hsum
    wts.length x hh hw
  have hB := engine_self_one (gaussian_filter ks sigma) dr k1 k2 wts x
    hk1 hk2 hker hsum hL hC hh hw
  have hval : validateInput ks x x = true := by
    simp [validateInput, hodd]
  have hscaled := engine_self_one (gaussian_filter ks sigma) dr k1 k2 wts (x.scale dr)
    hk1 hk2 hker hsum hL hC hh hw
  have hC9 : multi_scale_ssim ks sigma dr "none" (some wts) k1 k2 x x =
      .ok (List.replicate x.n 1) := by
    unfold multi_scale_ssim
    rw [if_pos hval, show (some wts).getD scaleWeightsDefault = wts from rfl, hscaled]
    show Except.ok ((List.range x.n).map fun _ => (1 : ℝ)) = _
    rw [List.map_const', List.length_range]
  have hD : (MultiScaleSSIMLoss.mk ks sigma k1 k2 (some wts) "none" dr).forward x x =
      .ok (List.replicate x.n 0) := by
    unfold MultiScaleSSIMLoss.forward
    dsimp only
    rw [hC9]
    show Except.ok ((List.replicate x.n (1 : ℝ)).map fun s => 1 - s) = _
    rw [List.map_replicate]
    norm_num
  exact ⟨hA, hB, hC9, hD⟩

/-- Claim C9 (witness): the concrete scenario — two identical 1×1×256×256
images of constant value 0.5, data range 1, kernel 11 / sigma 1.5, default
paper weights: every level's terms are 1, the engine returns 1, the metric
returns [1] and the loss returns [0]. -/
theorem c9_identical_witness :
    (∀ p ∈ msTerms (_ssim_per_channel (gaussian_filter 11 1.5) 1 0.01 0.03)
        scaleWeightsDefault.length x9 x9, ∀ b ch, p.1 b ch = 1 ∧ p.2 b ch = 1) ∧
      _multi_scale_ssim (_ssim_per_channel (gaussian_filter 11 1.5) 1 0.01 0.03)
        (gaussian_filter 11 1.5).k scaleWeightsDefault x9 x9 = .ok ⟨x9.n, fun _ => 1⟩ ∧
      multi_scale_ssim 11 1.5 1 "none" (some scaleWeightsDefault) 0.01 0.03 x9 x9 =
        .ok (List.replicate x9.n 1) ∧
      (MultiScaleSSIMLoss.mk 11 1.5 0.01 0.03 (some scaleWeightsDefault) "none" 1).forward
        x9 x9 = .ok (List.replicate x9.n 0) :=
  c9_identical 11 1.5 1 0.01 0.03 scaleWeightsDefault x9
    (by norm_num) (by norm_num) (by norm_num) (by norm_num)
    (by norm_num [scaleWeightsDefault]) Nat.le.refl
    (by norm_num [scaleWeightsDefault, x9, constT])
    (by norm_num [scaleWeightsDefault, x9, constT])

/-- Claim C10: in the complex path the clamp is applied independently to the
real and the imaginary component of every per-level term before conversion to
magnitude-phase form (definitions `cAbs`/`cDeg` used by the engine); hence
every per-level phase lies in `[0, π/2]`, a term with both components negative
gets magnitude 0, and — all scale weights being positive — such a term forces
the across-level product for that batch item and channel to 0. -/
theorem c10_complex_clamp :
    (∀ re im : ℝ, 0 ≤ cDeg re im ∧ cDeg re im ≤ Real.pi / 2) ∧
    (∀ re im : ℝ, re < 0 → im < 0 → cAbs re im = 0) ∧
    (∀ (w : List ℝ) (stacked : List CChanMap) (b ch i : ℕ),
      (∀ wi ∈ w, 0 < wi) → i < stacked.length → i < w.length →
      (stacked.getD i czeroMap).1 b ch < 0 → (stacked.getD i czeroMap).2 b ch < 0 →
      cProdAbs w stacked b ch = 0) :=
  ⟨cDeg_mem, cAbs_of_neg_neg, cProdAbs_eq_zero⟩

/-- Claim C10 (witness): concrete instances of the three parts. -/
theorem c10_complex_clamp_witness :
    (0 ≤ cDeg (-1) 2 ∧ cDeg (-1) 2 ≤ Real.pi / 2) ∧ cAbs (-1) (-1) = 0 ∧
      cProdAbs [1] [cneg] 0 0 = 0 :=
  ⟨c10_complex_clamp.1 (-1) 2,
   c10_complex_clamp.2.1 (-1) (-1) (by norm_num) (by norm_num),
   c10_complex_clamp.2.2 [1] [cneg] 0 0 0
     (by intro wi hwi; rw [List.mem_singleton] at hwi; rw [hwi]; norm_num)
     (by simp) (by simp) (by simp [cneg]) (by simp [cneg])⟩

end

